import Mathlib

/-!
Verification development for the `ltcache` offline-persistence subsystem.

The definitions below are a shallow embedding of the Go sources:
`offline_collector.go` (segment classification, replay, compaction) and
`transcache.go` (the cache bundle, instance routing, startup and shutdown).

Modelling conventions:
* a Go `map[string]*OfflineCacheEntity` is modelled as an association list
  kept strictly sorted by key (a canonical, extensional map representation);
* a segment file on disk is modelled as its name together with the list of
  records its byte content decodes to, plus a flag telling whether the
  decoder hits a non-EOF error after that decodable part;
* directories are lists of such files in directory-walk (lexicographic)
  order, which is the order `filepath.WalkDir` delivers them in;
* machine integers (`time.Duration`, `int`) are modelled as `Int`;
* fallible operations return `Except String`;
* environment failures that do not depend on file content (failing `open`,
  `rename`, `stat` syscalls) are not modelled; content-determined failures
  (decode errors, `gob` encode errors) are.
-/

set_option autoImplicit false

namespace LTCache

/-- Prefix of finalized compaction output files (`rewriteFileName` in the source). -/
def rewriteFileName : String := "0Rewrite"

/-- Prefix of in-progress compaction output files (`tmpRewriteName` in the source). -/
def tmpRewriteName : String := "tmpRewrite"

/-- Prefix of superseded snapshots awaiting deletion (`oldRewriteName` in the source). -/
def oldRewriteName : String := "oldRewrite"

/-- Name of the cache instance every unknown instance id falls back to. -/
def DefaultCacheInstance : String := "*default"

/-- Model of Go `path.Join a b` for the clean paths this code builds. -/
def pathJoin (a b : String) : String :=
  if a = "" then b else a ++ "/" ++ b

/-- Model of Go `strings.HasPrefix p? s?`, over the characters of the two
strings (`strHasPfx p s` is true when `s` starts with `p`). -/
def strHasPfx (p s : String) : Bool :=
  p.toList.isPrefixOf s.toList

/-- Lexicographic comparison of character lists by code point, used to keep
the replay map in a canonical order. -/
def charListLt : List Char → List Char → Bool
  | [], [] => false
  | [], _ :: _ => true
  | _ :: _, [] => false
  | a :: as, b :: bs =>
    if a.toNat < b.toNat then true
    else if b.toNat < a.toNat then false
    else charListLt as bs

/-- Lexicographic order on strings (canonical key order of the replay map). -/
def strLt (a b : String) : Bool :=
  charListLt a.toList b.toList

theorem charListLt_irrefl (l : List Char) : charListLt l l = false := by
  induction l with
  | nil => rfl
  | cons a as ih => simp [charListLt, ih]

theorem charListLt_trans {l1 l2 l3 : List Char} (h12 : charListLt l1 l2 = true)
    (h23 : charListLt l2 l3 = true) : charListLt l1 l3 = true := by
  induction l1 generalizing l2 l3 with
  | nil =>
    cases l3 with
    | nil =>
      cases l2 with
      | nil => exact h23
      | cons b bs => exact absurd h23 (by simp [charListLt])
    | cons c cs => rfl
  | cons a as ih =>
    cases l2 with
    | nil => exact absurd h12 (by simp [charListLt])
    | cons b bs =>
      cases l3 with
      | nil => exact absurd h23 (by simp [charListLt])
      | cons c cs =>
        rw [charListLt] at h12 h23 ⊢
        by_cases hab : a.toNat < b.toNat
        · rw [if_pos hab] at h12
          by_cases hbc : b.toNat < c.toNat
          · rw [if_pos (Nat.lt_trans hab hbc)]
          · by_cases hcb : c.toNat < b.toNat
            · rw [if_neg hbc, if_pos hcb] at h23
              cases h23
            · have hbc' : b.toNat = c.toNat :=
                Nat.le_antisymm (Nat.le_of_not_lt hcb) (Nat.le_of_not_lt hbc)
              rw [if_pos (hbc' ▸ hab)]
        · rw [if_neg hab] at h12
          by_cases hba : b.toNat < a.toNat
          · rw [if_pos hba] at h12
            cases h12
          · rw [if_neg hba] at h12
            have hab' : a.toNat = b.toNat :=
              Nat.le_antisymm (Nat.le_of_not_lt hba) (Nat.le_of_not_lt hab)
            by_cases hbc : b.toNat < c.toNat
            · rw [if_pos (hab'.symm ▸ hbc)]
            · by_cases hcb : c.toNat < b.toNat
              · rw [if_neg hbc, if_pos hcb] at h23
                cases h23
              · rw [if_neg hbc, if_neg hcb] at h23
                have hbc' : b.toNat = c.toNat :=
                  Nat.le_antisymm (Nat.le_of_not_lt hcb) (Nat.le_of_not_lt hbc)
                have hac : a.toNat = c.toNat := hab'.trans hbc'
                rw [if_neg (by rw [hac]; exact Nat.lt_irrefl _),
                  if_neg (by rw [hac]; exact Nat.lt_irrefl _)]
                exact ih h12 h23

theorem charListLt_eq_of_not {l1 l2 : List Char} (h1 : charListLt l1 l2 = false)
    (h2 : charListLt l2 l1 = false) : l1 = l2 := by
  induction l1 generalizing l2 with
  | nil =>
    cases l2 with
    | nil => rfl
    | cons b bs => exact absurd h1 (by simp [charListLt])
  | cons a as ih =>
    cases l2 with
    | nil => exact absurd h2 (by simp [charListLt])
    | cons b bs =>
      rw [charListLt] at h1 h2
      by_cases hab : a.toNat < b.toNat
      · rw [if_pos hab] at h1
        cases h1
      · by_cases hba : b.toNat < a.toNat
        · rw [if_pos hba] at h2
          cases h2
        · rw [if_neg hab, if_neg hba] at h1
          rw [if_neg hba, if_neg hab] at h2
          have ht : a.toNat = b.toNat :=
            Nat.le_antisymm (Nat.le_of_not_lt hba) (Nat.le_of_not_lt hab)
          have hchar : a = b := Char.ext (UInt32.ext ht)
          rw [hchar, ih h1 h2]

theorem strLt_irrefl (a : String) : strLt a a = false :=
  charListLt_irrefl _

theorem strLt_ne {a b : String} (h : strLt a b = true) : a ≠ b := by
  intro hc
  rw [hc, strLt_irrefl] at h
  cases h

theorem strLt_trans {a b c : String} (h1 : strLt a b = true)
    (h2 : strLt b c = true) : strLt a c = true :=
  charListLt_trans h1 h2

theorem strLt_of_not_of_ne {a b : String} (h1 : strLt a b = false) (hne : a ≠ b) :
    strLt b a = true := by
  cases hba : strLt b a
  · exact absurd (String.ext (charListLt_eq_of_not h1 hba)) hne
  · rfl

theorem strLt_trichotomy (a b : String) :
    strLt a b = true ∨ a = b ∨ strLt b a = true := by
  cases hab : strLt a b
  · by_cases hne : a = b
    · exact Or.inr (Or.inl hne)
    · exact Or.inr (Or.inr (strLt_of_not_of_ne hab hne))
  · exact Or.inl rfl

/-- One decoded log record (`OfflineCacheEntity` in the source).  The untyped
Go `any` payload is the type parameter `α`; `time.Time` is modelled as `Int`. -/
structure OfflineCacheEntity (α : Type) where
  IsSet : Bool
  ItemID : String
  Value : α
  GroupIDs : List String
  ExpiryTime : Int
deriving DecidableEq, Repr

/-- One segment file of an instance directory: its path, the records its
content decodes to, and whether decoding fails (other than `io.EOF`) after
that decodable part. -/
structure SegFile (α : Type) where
  name : String
  records : List (OfflineCacheEntity α)
  corrupt : Bool
deriving DecidableEq, Repr

/-- In-memory replay map `map[string]*OfflineCacheEntity`, as an association
list kept strictly sorted by key. -/
abbrev InstMap (α : Type) := List (String × OfflineCacheEntity α)

variable {α : Type}

/-- Lookup in the replay map. -/
def getKey (k : String) : InstMap α → Option (OfflineCacheEntity α)
  | [] => none
  | (k', v) :: rest => if k = k' then some v else getKey k rest

/-- Insert-or-replace in the replay map, keeping it sorted by key. -/
def setKey (k : String) (v : OfflineCacheEntity α) : InstMap α → InstMap α
  | [] => [(k, v)]
  | (k', v') :: rest =>
    if strLt k k' then (k, v) :: (k', v') :: rest
    else if k = k' then (k, v) :: rest
    else (k', v') :: setKey k v rest

/-- Delete from the replay map. -/
def delKey (k : String) : InstMap α → InstMap α
  | [] => []
  | (k', v') :: rest => if k = k' then rest else (k', v') :: delKey k rest

/-- Effect of one decoded record on the replay map: a SET stores the record
under its item id, a REMOVE deletes that item id (the loop body of
`readAndDecodeFile` in the source). -/
def applyEntity (inst : InstMap α) (oce : OfflineCacheEntity α) : InstMap α :=
  if oce.IsSet then setKey oce.ItemID oce inst else delKey oce.ItemID inst

/-- Folding a list of decoded records into the replay map, in stream order. -/
def decodeRecords (l : List (OfflineCacheEntity α)) (inst : InstMap α) : InstMap α :=
  l.foldl applyEntity inst

/-- Error message produced when decoding a segment fails with a non-EOF
error (the `fmt.Errorf` in `readAndDecodeFile`). -/
def decodeErrMsg (name : String) : String :=
  "failed to decode OfflineCacheEntity at <" ++ name ++ ">"

/-- Model of `readAndDecodeFile`: decode records one by one, applying each to
the replay map; `io.EOF` ends the file normally, any other decode error
aborts with a message naming the file. -/
def readAndDecodeFile (f : SegFile α) (inst : InstMap α) :
    Except String (InstMap α) :=
  if f.corrupt then .error (decodeErrMsg f.name)
  else .ok (decodeRecords f.records inst)

/-- Replay a list of segment files into a given map, stopping at the first
failing file (the loop of `readInstanceFromFiles` / `getFilePathsAndInstance`). -/
def readFilesInto : List (SegFile α) → InstMap α → Except String (InstMap α)
  | [], inst => .ok inst
  | f :: rest, inst =>
    match readAndDecodeFile f inst with
    | .error e => .error e
    | .ok inst' => readFilesInto rest inst'

/-- Model of `readInstanceFromFiles`: replay all files, in order, starting
from the empty map. -/
def readInstanceFromFiles (paths : List (SegFile α)) : Except String (InstMap α) :=
  readFilesInto paths []

/-- Specification-side definition, following the spec words "sets overwrite,
removes delete; the minimal state": the last record of the stream concerning
a given item id. -/
def lastRecordFor (k : String) : List (OfflineCacheEntity α) → Option (OfflineCacheEntity α)
  | [] => none
  | e :: rest =>
    match lastRecordFor k rest with
    | some r => some r
    | none => if e.ItemID = k then some e else none

/-! ### Startup segment classification (`validateFilePaths`) -/

/-- Keep predicate implicit in the loop of `validateFilePaths`: a path is
kept unless it carries the `tmpRewrite` name, or carries the `0Rewrite` name
while some `oldRewrite` file is present. -/
def keepPath (fileName : String) (removeZeroRewrite : Bool) (s : String) : Bool :=
  !(strHasPfx (pathJoin fileName tmpRewriteName) s) &&
    !(removeZeroRewrite && strHasPfx (pathJoin fileName rewriteFileName) s)

/-- Loop of `validateFilePaths`: returns the kept paths and, separately, the
paths it passes to `os.Remove` (file removal is modelled as succeeding). -/
def validatePathsLoop (fileName : String) (removeZeroRewrite : Bool) :
    List String → List String × List String
  | [] => ([], [])
  | s :: rest =>
    let (valid, deleted) := validatePathsLoop fileName removeZeroRewrite rest
    if strHasPfx (pathJoin fileName tmpRewriteName) s then (valid, s :: deleted)
    else if removeZeroRewrite && strHasPfx (pathJoin fileName rewriteFileName) s then
      (valid, s :: deleted)
    else (s :: valid, deleted)

/-- Model of `validateFilePaths`: first scan for any `oldRewrite*` path, then
drop (deleting from disk) every `tmpRewrite*` path and, when an `oldRewrite*`
path exists, every `0Rewrite*` path.  First component: the returned list;
second component: the deleted paths. -/
def validateFilePaths (paths : List String) (fileName : String) :
    List String × List String :=
  let removeZeroRewrite :=
    paths.any fun s => strHasPfx (pathJoin fileName oldRewriteName) s
  validatePathsLoop fileName removeZeroRewrite paths

/-- Directory-level view of `validateFilePaths`: the segment files whose
paths survive classification, in their original order. -/
def validateDirFiles (dir : List (SegFile α)) (fileName : String) :
    List (SegFile α) :=
  let removeZeroRewrite :=
    dir.any fun f => strHasPfx (pathJoin fileName oldRewriteName) f.name
  dir.filter fun f => keepPath fileName removeZeroRewrite f.name

/-! ### Startup replay (`newCacheFromReader`, `NewTransCacheWithOfflineCollector`) -/

/-- Model of `newCacheFromReader` up to the cache construction: enumerate the
instance folder (the `dir` argument, in walk order), classify and clean it,
then replay the surviving files into a map.  Errors propagate unchanged. -/
def newCacheFromReader (dir : List (SegFile α)) (instanceFldrPath : String) :
    Except String (InstMap α) :=
  readInstanceFromFiles (validateDirFiles dir instanceFldrPath)

/-- Model of `NewTransCacheWithOfflineCollector` over the configured
instances (name plus that instance's directory): each instance is replayed
with `newCacheFromReader`; any failure makes construction fail with that
instance's error, and no bundle is returned. -/
def newTransCacheWithOfflineCollector (fldrPath : String) :
    List (String × List (SegFile α)) →
      Except String (List (String × InstMap α))
  | [] => .ok []
  | (chInstance, dir) :: rest =>
    match newCacheFromReader dir (pathJoin fldrPath chInstance) with
    | .error e => .error e
    | .ok m =>
      match newTransCacheWithOfflineCollector fldrPath rest with
      | .error e => .error e
      | .ok ms => .ok ((chInstance, m) :: ms)

/-! ### Compaction (`rewriteFiles`, `getFilePathsAndInstance`, `shouldSkipRewrite`) -/

/-- Byte size of a segment file, given an abstract encoded size per record. -/
def fileSize (sz : OfflineCacheEntity α → Nat) (f : SegFile α) : Nat :=
  (f.records.map sz).sum

/-- Number of enumerated files whose name does not carry the `0Rewrite`
name (the `nonRewriteFiles` counter of `shouldSkipRewrite`; the source
stops counting at 2, which only the comparison with 1 observes). -/
def countNonRewrite (dir : List (SegFile α)) (instanceFldrPath : String) : Nat :=
  dir.countP fun f =>
    !(strHasPfx (pathJoin instanceFldrPath rewriteFileName) f.name)

/-- Size of the collector's open dump file (`coll.file.Stat()` in
`shouldSkipRewrite`), found in the enumerated directory by its path. -/
def activeFileSize (dir : List (SegFile α)) (activeName : String)
    (sz : OfflineCacheEntity α → Nat) : Nat :=
  match dir.find? fun f => f.name == activeName with
  | some f => fileSize sz f
  | none => 0

/-- Skip decision of `shouldSkipRewrite`: exactly one enumerated file is not
a `0Rewrite*` file and the open dump file is empty. -/
def shouldSkipRewrite (dir : List (SegFile α)) (instanceFldrPath activeName : String)
    (sz : OfflineCacheEntity α → Nat) : Bool :=
  countNonRewrite dir instanceFldrPath == 1 &&
    activeFileSize dir activeName sz == 0

/-- Streaming the minimal map into temp files (step 5 of the protocol):
before each record, if the write limit is positive and the current temp file
exceeds `writeLimit` MiB, the file is closed and a fresh temp file opened;
then the record is encoded.  On the first record whose `gob` encode fails
the loop aborts; the payload of the `error` case is the list of temp-file
contents already on disk at that point. -/
def writeTmpLoop (writeLimit : Int) (sz : OfflineCacheEntity α → Nat)
    (encodeFails : OfflineCacheEntity α → Bool) :
    List (OfflineCacheEntity α) → List (List (OfflineCacheEntity α)) →
      List (OfflineCacheEntity α) → Nat →
      Except (List (List (OfflineCacheEntity α))) (List (List (OfflineCacheEntity α)))
  | [], done, cur, _ => .ok (done ++ [cur.reverse])
  | e :: rest, done, cur, curSize =>
    if writeLimit > 0 ∧ (curSize : Int) > writeLimit * 1024 * 1024 then
      if encodeFails e then .error (done ++ [cur.reverse, []])
      else writeTmpLoop writeLimit sz encodeFails rest (done ++ [cur.reverse]) [e] (sz e)
    else
      if encodeFails e then .error (done ++ [cur.reverse])
      else writeTmpLoop writeLimit sz encodeFails rest done (e :: cur) (curSize + sz e)

/-- Temp-file contents written by one compaction run, in creation order. -/
def writeTmpChunks (writeLimit : Int) (sz : OfflineCacheEntity α → Nat)
    (encodeFails : OfflineCacheEntity α → Bool)
    (order : List (OfflineCacheEntity α)) :
    Except (List (List (OfflineCacheEntity α))) (List (List (OfflineCacheEntity α))) :=
  writeTmpLoop writeLimit sz encodeFails order [] [] 0

/-- Zero-padded chunk index used in the final `0Rewrite` names: width is the
digit count of the number of temp files. -/
def padIndex (i total : Nat) : String :=
  let width := (toString total).length
  let s := toString i
  String.mk (List.replicate (width - s.length) '0') ++ s

/-- Name given to the `i`-th temp file once renamed to a finalized snapshot. -/
def zeroRewriteName (instanceFldrPath : String) (i total millis : Nat) : String :=
  pathJoin instanceFldrPath rewriteFileName ++ padIndex i total ++ "_" ++ toString millis

/-- Finalized snapshot files produced from the temp-file contents, in index
order (step 8 renames preserve the creation order lexicographically). -/
def zeroFilesFrom (instanceFldrPath : String) (total millis : Nat) :
    Nat → List (List (OfflineCacheEntity α)) → List (SegFile α)
  | _, [] => []
  | i, c :: rest =>
    ⟨zeroRewriteName instanceFldrPath i total millis, c, false⟩ ::
      zeroFilesFrom instanceFldrPath total millis (i + 1) rest

/-- Names of the temp files: the first is `tmpRewrite`, later ones carry a
millisecond suffix. -/
def tmpFilesFrom (instanceFldrPath : String) (millis : Nat) :
    Nat → List (List (OfflineCacheEntity α)) → List (SegFile α)
  | _, [] => []
  | i, c :: rest =>
    ⟨(if i = 0 then pathJoin instanceFldrPath tmpRewriteName
       else pathJoin instanceFldrPath tmpRewriteName ++ toString millis), c, false⟩ ::
      tmpFilesFrom instanceFldrPath millis (i + 1) rest

/-- Fresh active segment created by `populateEncoder` during compaction:
an empty file named by the current millisecond timestamp. -/
def newActiveSeg (instanceFldrPath : String) (millis : Nat) : SegFile α :=
  ⟨pathJoin instanceFldrPath (toString millis), [], false⟩

/-- Observable outcome of one `rewriteFiles` call: the directory afterwards
(walk order) and which phases ran. -/
structure RewriteOutcome (α : Type) where
  dir : List (SegFile α)
  replayed : Bool
  wroteTmp : Bool
  renamed : Bool
  deletedOld : Bool
deriving DecidableEq, Repr

/-- Model of `rewriteFiles` (with `getFilePathsAndInstance` inlined), run
without interleaving:

* enumerate `dir`; if `shouldSkipRewrite` holds, return untouched;
* otherwise close the dump file and create a fresh active segment named by
  a millisecond timestamp (`populateEncoder`), then replay the enumerated
  files;  a replay error aborts before any temp file is created;
* stream the map — iterated in the order `order`, since Go map iteration
  order is arbitrary — into temp files; if a `gob` encode fails, the run
  aborts, and because the failing `err` at that point is a shadowed local
  (not the `err` the deferred cleanup inspects) the temp files already
  created stay on disk;
* on success, rename old snapshots aside, rename the temp files to
  `0Rewrite*` names and delete every enumerated file, leaving only the new
  snapshots and the fresh active segment.  The `0Rewrite*` names sort before
  the fresh timestamp name, so walk order lists the snapshots first. -/
def rewriteFiles (dir : List (SegFile α)) (instanceFldrPath activeName : String)
    (writeLimit : Int) (sz : OfflineCacheEntity α → Nat)
    (order : List (OfflineCacheEntity α))
    (encodeFails : OfflineCacheEntity α → Bool) (millis : Nat) :
    RewriteOutcome α :=
  if shouldSkipRewrite dir instanceFldrPath activeName sz then
    ⟨dir, false, false, false, false⟩
  else
    match readInstanceFromFiles dir with
    | .error _ => ⟨dir ++ [newActiveSeg instanceFldrPath millis], true, false, false, false⟩
    | .ok _ =>
      match writeTmpChunks writeLimit sz encodeFails order with
      | .error partChunks =>
        ⟨dir ++ [newActiveSeg instanceFldrPath millis] ++
            tmpFilesFrom instanceFldrPath millis 0 partChunks,
          true, true, false, false⟩
      | .ok chunks =>
        ⟨zeroFilesFrom instanceFldrPath chunks.length millis 0 chunks ++
            [newActiveSeg instanceFldrPath millis],
          true, true, true, true⟩

/-! ### Segment writer rotation (`checkAndRotateFile`, `writeEntity`) -/

/-- State of the collector's open dump file: the records appended so far,
its byte size, and the contents of the segments already closed by rotation. -/
structure WriterState (α : Type) where
  fileRecords : List (OfflineCacheEntity α)
  byteSize : Nat
  rotatedSegments : List (List (OfflineCacheEntity α))
deriving DecidableEq, Repr

/-- Model of `checkAndRotateFile`: a write limit of `-1` disables rotation;
otherwise, when the open file's size strictly exceeds `writeLimit` MiB, the
file is closed and a fresh timestamped segment opened. -/
def checkAndRotateFile (writeLimit : Int) (st : WriterState α) : WriterState α :=
  if writeLimit = -1 then st
  else if (st.byteSize : Int) > writeLimit * 1024 * 1024 then
    ⟨[], 0, st.rotatedSegments ++ [st.fileRecords]⟩
  else st

/-- Model of `writeEntity`: rotate if needed, then encode-and-flush the
record onto the open file. -/
def writeEntity (writeLimit : Int) (sz : OfflineCacheEntity α → Nat)
    (st : WriterState α) (oce : OfflineCacheEntity α) : WriterState α :=
  let st' := checkAndRotateFile writeLimit st
  ⟨st'.fileRecords ++ [oce], st'.byteSize + sz oce, st'.rotatedSegments⟩

/-! ### Bundle timers (`NewTransCacheWithOfflineCollector`, `RewriteAll`, `Shutdown`) -/

/-- Guard of `RewriteAll` in `transcache.go`: it returns immediately when
`dumpInterval` or `rewriteInterval` is `0`; otherwise it calls
`rewriteFiles` once per instance.  Value: compactions per instance. -/
def rewriteAllCount (dumpInterval rewriteInterval : Int) : Nat :=
  if dumpInterval = 0 || rewriteInterval = 0 then 0 else 1

/-- Compactions of each instance run at the end of startup replay: the
constructor calls `RewriteAll` once exactly when `rewriteInterval == -1`. -/
def startupRewriteCount (dumpInterval rewriteInterval : Int) : Nat :=
  if rewriteInterval = -1 then rewriteAllCount dumpInterval rewriteInterval else 0

/-- Whether the constructor starts the compactor timer
(`go tc.asyncRewriteEntities()` is guarded by `rewriteInterval > 0`). -/
def startupRewriteTimer (_dumpInterval rewriteInterval : Int) : Bool :=
  rewriteInterval > 0

/-- Compactions of each instance run by `Shutdown`: nothing when
`dumpInterval == 0`; one final `RewriteAll` through the stopping compactor
timer when `rewriteInterval > 0`; one `RewriteAll` when
`rewriteInterval == -2`. -/
def shutdownRewriteCount (dumpInterval rewriteInterval : Int) : Nat :=
  if dumpInterval = 0 then 0
  else if rewriteInterval > 0 then rewriteAllCount dumpInterval rewriteInterval
  else if rewriteInterval = -2 then rewriteAllCount dumpInterval rewriteInterval
  else 0

/-! ### Cache bundle routing (`NewTransCache`, `cacheInstance`, public operations) -/

/-- Per-instance configuration (`CacheConfig` in the source; the eviction
callback is an external collaborator and is left out of the model). -/
structure CacheConfig where
  MaxItems : Int
  TTL : Int
  StaticTTL : Bool
deriving DecidableEq, Repr

/-- Modelled from the spec: the cache engine (`cache.go`) is not under
`src/`; only its callers are.  Per spec section 4.5 an instance holds the
item map and the group index; the LRU and TTL bookkeeping is not observable
through the routed operations the claims mention and is omitted. -/
structure CacheEngine (α : Type) where
  items : List (String × α)
  groups : List (String × List String)
deriving DecidableEq, Repr

/-- Counts reported by `GetCacheStats` for one instance. -/
structure CacheStats where
  Items : Nat
  Groups : Nat
deriving DecidableEq, Repr

/-- Modelled from the spec: empty engine state of a fresh instance. -/
def CacheEngine.empty : CacheEngine α := ⟨[], []⟩

/-- Modelled from the spec: shared-lock lookup of one item. -/
def CacheEngine.get (c : CacheEngine α) (itmID : String) : Option α :=
  c.items.lookup itmID

/-- Replace-or-insert in a plain association list (first binding wins). -/
def putAssoc {β : Type} (k : String) (v : β) :
    List (String × β) → List (String × β)
  | [] => [(k, v)]
  | (k', v') :: rest =>
    if k = k' then (k, v) :: rest else (k', v') :: putAssoc k v rest

/-- Modelled from the spec: group index after removing an item everywhere;
emptied groups disappear, keeping the index the exact inverse of the items'
group ids. -/
def dropFromGroups (itmID : String) (groups : List (String × List String)) :
    List (String × List String) :=
  (groups.map fun g => (g.1, g.2.filter fun i => i ≠ itmID)).filter
    fun g => !g.2.isEmpty

/-- Modelled from the spec: `set` stores the value and replaces the item's
group membership with the listed groups. -/
def CacheEngine.set (c : CacheEngine α) (itmID : String) (value : α)
    (groupIDs : List String) : CacheEngine α :=
  ⟨putAssoc itmID value c.items,
    groupIDs.foldl (fun gs g =>
        putAssoc g (((gs.lookup g).getD []) ++ [itmID]) gs)
      (dropFromGroups itmID c.groups)⟩

/-- Modelled from the spec: `remove` unlinks the item and its memberships. -/
def CacheEngine.remove (c : CacheEngine α) (itmID : String) : CacheEngine α :=
  ⟨c.items.filter fun p => p.1 ≠ itmID, dropFromGroups itmID c.groups⟩

/-- Modelled from the spec: read-only membership tests and views. -/
def CacheEngine.hasItem (c : CacheEngine α) (itmID : String) : Bool :=
  (c.items.lookup itmID).isSome

/-- Modelled from the spec: a group exists while it has members. -/
def CacheEngine.hasGroup (c : CacheEngine α) (grpID : String) : Bool :=
  (c.groups.lookup grpID).isSome

/-- Modelled from the spec: item ids matching a given leading string. -/
def CacheEngine.getItemIDs (c : CacheEngine α) (prfx : String) : List String :=
  (c.items.map Prod.fst).filter fun k => strHasPfx prfx k

/-- Modelled from the spec: `clear` leaves empty structures. -/
def CacheEngine.clear (_c : CacheEngine α) : CacheEngine α := ⟨[], []⟩

/-- Modelled from the spec: the per-instance statistics snapshot. -/
def CacheEngine.stats (c : CacheEngine α) : CacheStats :=
  ⟨c.items.length, c.groups.length⟩

/-- State of the bundle relevant to routing: the named engine instances
(`TransCache.cache` in the source). -/
structure TransCache (α : Type) where
  cache : List (String × CacheEngine α)
deriving DecidableEq, Repr

/-- Default-instance insertion shared by both constructors: when the
configuration lacks `*default`, a `CacheConfig{MaxItems: -1}` entry is added
for it (transcache.go lines 76-78 and 316-318). -/
def ensureDefaultCfg (cfg : List (String × CacheConfig)) :
    List (String × CacheConfig) :=
  if (cfg.lookup DefaultCacheInstance).isSome then cfg
  else cfg ++ [(DefaultCacheInstance, ⟨-1, 0, false⟩)]

/-- Model of `NewTransCache`: the `*default` instance is added to the
configuration when absent, and one engine is created per configured id. -/
def NewTransCache (α : Type) (cfg : List (String × CacheConfig)) : TransCache α :=
  ⟨(ensureDefaultCfg cfg).map fun p => (p.1, CacheEngine.empty)⟩

/-- Model of `cacheInstance`: the requested instance, or `*default` when the
id is not configured. -/
def cacheInstance (tc : TransCache α) (chID : String) : Option (CacheEngine α) :=
  match tc.cache.lookup chID with
  | some c => some c
  | none => tc.cache.lookup DefaultCacheInstance

/-- Id actually addressed by a mutation routed through `cacheInstance`. -/
def routedId (tc : TransCache α) (chID : String) : String :=
  if (tc.cache.lookup chID).isSome then chID else DefaultCacheInstance

/-- In-place update of the addressed instance, as the Go pointer mutation. -/
def updateInstance (tc : TransCache α) (chID : String)
    (f : CacheEngine α → CacheEngine α) : TransCache α :=
  ⟨tc.cache.map fun p => if p.1 = routedId tc chID then (p.1, f p.2) else p⟩

/-- Model of `TransCache.Get` (committed path). -/
def TransCache.getOp (tc : TransCache α) (chID itmID : String) : Option α :=
  (cacheInstance tc chID).bind fun c => c.get itmID

/-- Model of `TransCache.Set` (committed path, no transaction). -/
def TransCache.setOp (tc : TransCache α) (chID itmID : String) (value : α)
    (groupIDs : List String) : TransCache α :=
  updateInstance tc chID fun c => c.set itmID value groupIDs

/-- Model of `TransCache.Remove` (committed path, no transaction). -/
def TransCache.removeOp (tc : TransCache α) (chID itmID : String) : TransCache α :=
  updateInstance tc chID fun c => c.remove itmID

/-- Model of `TransCache.HasItem`. -/
def TransCache.hasItemOp (tc : TransCache α) (chID itmID : String) : Bool :=
  ((cacheInstance tc chID).map fun c => c.hasItem itmID).getD false

/-- Model of `TransCache.HasGroup`. -/
def TransCache.hasGroupOp (tc : TransCache α) (chID grpID : String) : Bool :=
  ((cacheInstance tc chID).map fun c => c.hasGroup grpID).getD false

/-- Model of `TransCache.GetItemIDs`. -/
def TransCache.getItemIDsOp (tc : TransCache α) (chID prfx : String) : List String :=
  ((cacheInstance tc chID).map fun c => c.getItemIDs prfx).getD []

/-- Model of `TransCache.Clear`: `none` clears every instance, a list clears
each addressed instance. -/
def TransCache.clearOp (tc : TransCache α) (chIDs : Option (List String)) :
    TransCache α :=
  let ids := match chIDs with
    | none => tc.cache.map Prod.fst
    | some l => l
  ids.foldl (fun acc chID => updateInstance acc chID fun c => c.clear) tc

/-- Model of `TransCache.GetCacheStats` over an explicit list of ids: the
result is keyed by the requested id while the statistics come from the
routed instance. -/
def TransCache.getCacheStatsOp (tc : TransCache α) (chIDs : List String) :
    List (String × CacheStats) :=
  chIDs.map fun chID =>
    (chID, ((cacheInstance tc chID).map fun c => c.stats).getD ⟨0, 0⟩)

/-- Engine state recovered from one replayed instance map: the populate loop
of `newCacheFromReader` turns every recovered entity into a cached item and
adds it to its groups. -/
def engineFromInstance (inst : InstMap α) : CacheEngine α :=
  inst.foldl (fun c p => c.set p.2.ItemID p.2.Value p.2.GroupIDs) CacheEngine.empty

/-- Bundle-level view of `NewTransCacheWithOfflineCollector`
(transcache.go lines 312-373), complementing the replay-level model used for
the error-propagation claim: the `*default` configuration is inserted when
absent (lines 316-318), one engine per configured instance is built by
replaying that instance's directory (`dirs` gives each instance's folder
content), and any replay failure fails construction, returning no bundle.
The interval and limit arguments configure the collector and timers, which
are modelled separately. -/
def newTransCacheWithOfflineCollectorBundle (α : Type) (fldrPath : String)
    (_dumpInterval _rewriteInterval _writeLimit : Int)
    (cfg : List (String × CacheConfig)) (dirs : String → List (SegFile α)) :
    Except String (TransCache α) :=
  match newTransCacheWithOfflineCollector fldrPath
      ((ensureDefaultCfg cfg).map fun p => (p.1, dirs p.1)) with
  | .error e => .error e
  | .ok ms => .ok ⟨ms.map fun p => (p.1, engineFromInstance p.2)⟩

/-! ### `GetCloned` (clone-on-get accessor) -/

/-- Dynamic value stored in a cache, as `GetCloned` distinguishes them: the
untyped `nil`, a value without the `Cloner` capability, and a `Cloner` whose
`Clone` either succeeds (the model clones structurally) or returns an error
message. -/
inductive GoValue where
  | nilV : GoValue
  | plain : String → GoValue
  | clonable : String → Bool → GoValue
deriving DecidableEq, Repr

/-- Capability test `origVal.(Cloner)`. -/
def implementsCloner : GoValue → Bool
  | .clonable _ _ => true
  | _ => false

/-- Errors observable from `GetCloned`, by provenance: the two sentinel
errors of `transcache.go` and an error returned by the value's own `Clone`. -/
inductive GetClonedError where
  | errNotFound : GetClonedError
  | errNotClonable : GetClonedError
  | cloneFailed : String → GetClonedError
deriving DecidableEq, Repr

/-- Model of `TransCache.GetCloned`: a missing item yields `ErrNotFound`; a
present `nil` value returns `(nil, nil)` before any capability check; a
present non-`nil` value without `Cloner` yields `ErrNotClonable`; otherwise
`Clone` is called and its value or error is returned. -/
def TransCache.getClonedOp (tc : TransCache GoValue) (chID itmID : String) :
    Except GetClonedError (Option GoValue) :=
  match TransCache.getOp tc chID itmID with
  | none => .error .errNotFound
  | some origVal =>
    if origVal = .nilV then .ok none
    else
      match origVal with
      | .clonable s ok =>
        if ok then .ok (some (.clonable s ok)) else .error (.cloneFailed s)
      | _ => .error .errNotClonable

/-! ### Supporting lemmas -/

/-- Unfolding of `validatePathsLoop` as two filters over the input list. -/
theorem validatePathsLoop_eq_filter (fileName : String) (rz : Bool)
    (paths : List String) :
    validatePathsLoop fileName rz paths =
      (paths.filter (keepPath fileName rz),
        paths.filter fun s => !keepPath fileName rz s) := by
  induction paths with
  | nil => rfl
  | cons s rest ih =>
    by_cases htmp : strHasPfx (pathJoin fileName tmpRewriteName) s
    · simp [validatePathsLoop, ih, keepPath, htmp]
    · by_cases hzr : rz && strHasPfx (pathJoin fileName rewriteFileName) s
      · simp [validatePathsLoop, ih, keepPath, htmp, hzr]
      · simp [validatePathsLoop, ih, keepPath, htmp, hzr]

/-- All records contained in a list of segment files, in stream order. -/
def allRecords (files : List (SegFile α)) : List (OfflineCacheEntity α) :=
  (files.map SegFile.records).flatten

/-- Keys of the replay map are strictly increasing. -/
abbrev SortedKeys (m : InstMap α) : Prop :=
  List.Pairwise (fun a b => strLt a.1 b.1 = true) m

/-- Every binding of the replay map stores a SET record under its item id. -/
def WFEntries (m : InstMap α) : Prop :=
  ∀ p ∈ m, p.2.IsSet = true ∧ p.2.ItemID = p.1

theorem mem_setKey {k : String} {v : OfflineCacheEntity α} {m : InstMap α}
    {p : String × OfflineCacheEntity α} (h : p ∈ setKey k v m) :
    p = (k, v) ∨ p ∈ m := by
  induction m with
  | nil =>
    simp only [setKey, List.mem_singleton] at h
    exact Or.inl h
  | cons q rest ih =>
    rcases q with ⟨k', v'⟩
    by_cases h1 : strLt k k' = true
    · simp only [setKey, if_pos h1] at h
      exact List.mem_cons.mp h
    · by_cases h2 : k = k'
      · simp only [setKey, if_neg h1, if_pos h2] at h
        rcases List.mem_cons.mp h with h' | h'
        · exact Or.inl h'
        · exact Or.inr (List.mem_cons.mpr (Or.inr h'))
      · simp only [setKey, if_neg h1, if_neg h2] at h
        rcases List.mem_cons.mp h with h' | h'
        · exact Or.inr (List.mem_cons.mpr (Or.inl h'))
        · rcases ih h' with h'' | h''
          · exact Or.inl h''
          · exact Or.inr (List.mem_cons.mpr (Or.inr h''))

theorem mem_delKey {k : String} {m : InstMap α}
    {p : String × OfflineCacheEntity α} (h : p ∈ delKey k m) : p ∈ m := by
  induction m with
  | nil => exact absurd h (by simp [delKey])
  | cons q rest ih =>
    rcases q with ⟨k', v'⟩
    by_cases h2 : k = k'
    · simp only [delKey, if_pos h2] at h
      simp [h]
    · simp only [delKey, if_neg h2, List.mem_cons] at h
      rcases h with h | h
      · simp [h]
      · simp [ih h]

theorem sortedKeys_setKey {k : String} {v : OfflineCacheEntity α}
    {m : InstMap α} (h : SortedKeys m) : SortedKeys (setKey k v m) := by
  induction m with
  | nil => exact List.pairwise_cons.mpr ⟨by simp, List.Pairwise.nil⟩
  | cons q rest ih =>
    rcases q with ⟨k', v'⟩
    rcases List.pairwise_cons.mp h with ⟨hall, htail⟩
    by_cases h1 : strLt k k' = true
    · simp only [setKey, if_pos h1]
      refine List.pairwise_cons.mpr ⟨?_, h⟩
      intro p hp
      rcases List.mem_cons.mp hp with h' | h'
      · rw [h']
        exact h1
      · exact strLt_trans h1 (hall p h')
    · by_cases h2 : k = k'
      · simp only [setKey, if_neg h1, if_pos h2]
        refine List.pairwise_cons.mpr ⟨?_, htail⟩
        intro p hp
        exact h2.symm ▸ hall p hp
      · simp only [setKey, if_neg h1, if_neg h2]
        refine List.pairwise_cons.mpr ⟨?_, ih htail⟩
        intro p hp
        rcases mem_setKey hp with h' | h'
        · rw [h']
          exact strLt_of_not_of_ne (Bool.eq_false_iff.mpr h1) h2
        · exact hall p h'

theorem sortedKeys_delKey {k : String} {m : InstMap α}
    (h : SortedKeys m) : SortedKeys (delKey k m) := by
  induction m with
  | nil => exact List.Pairwise.nil
  | cons q rest ih =>
    rcases q with ⟨k', v'⟩
    rcases List.pairwise_cons.mp h with ⟨hall, htail⟩
    by_cases h2 : k = k'
    · simp only [delKey, if_pos h2]
      exact htail
    · simp only [delKey, if_neg h2]
      refine List.pairwise_cons.mpr ⟨?_, ih htail⟩
      intro p hp
      exact hall p (mem_delKey hp)

theorem getKey_setKey_self (k : String) (v : OfflineCacheEntity α)
    (m : InstMap α) : getKey k (setKey k v m) = some v := by
  induction m with
  | nil => simp [setKey, getKey]
  | cons q rest ih =>
    rcases q with ⟨k', v'⟩
    by_cases h1 : strLt k k' = true
    · simp [setKey, getKey, h1]
    · by_cases h2 : k = k'
      · simp [setKey, getKey, h1, h2, strLt_irrefl]
      · simp [setKey, getKey, h1, h2, ih]

theorem getKey_setKey_ne (k j : String) (v : OfflineCacheEntity α)
    (m : InstMap α) (h : j ≠ k) : getKey j (setKey k v m) = getKey j m := by
  induction m with
  | nil => simp [setKey, getKey, h]
  | cons q rest ih =>
    rcases q with ⟨k', v'⟩
    by_cases h1 : strLt k k' = true
    · simp [setKey, getKey, h1, h]
    · by_cases h2 : k = k'
      · by_cases h3 : j = k'
        · exact absurd (h3.trans h2.symm) h
        · simp [setKey, getKey, h1, h2, h3, h, strLt_irrefl]
      · by_cases h3 : j = k'
        · simp [setKey, getKey, h1, h2, h3]
        · simp [setKey, getKey, h1, h2, h3, ih]

theorem getKey_none_of_keys_ne (j : String) (m : InstMap α)
    (h : ∀ p ∈ m, p.1 ≠ j) : getKey j m = none := by
  induction m with
  | nil => rfl
  | cons q rest ih =>
    rcases q with ⟨k', v'⟩
    have : j ≠ k' := fun hc => (h (k', v') (by simp)) (by simp [hc])
    simp only [getKey, if_neg this]
    exact ih fun p hp => h p (by simp [hp])

theorem getKey_delKey_self (k : String) (m : InstMap α)
    (hs : SortedKeys m) : getKey k (delKey k m) = none := by
  induction m with
  | nil => rfl
  | cons q rest ih =>
    rcases q with ⟨k', v'⟩
    rcases (List.pairwise_cons.mp hs) with ⟨hall, htail⟩
    by_cases h2 : k = k'
    · simp only [delKey, if_pos h2]
      exact getKey_none_of_keys_ne k rest fun p hp =>
        Ne.symm (strLt_ne (by rw [h2]; exact hall p hp))
    · simp only [delKey, if_neg h2, getKey, if_neg h2]
      exact ih htail

theorem getKey_delKey_ne (k j : String) (m : InstMap α) (h : j ≠ k) :
    getKey j (delKey k m) = getKey j m := by
  induction m with
  | nil => rfl
  | cons q rest ih =>
    rcases q with ⟨k', v'⟩
    by_cases h2 : k = k'
    · have h3 : j ≠ k' := h2 ▸ h
      simp [delKey, getKey, h2, h3]
    · by_cases h3 : j = k'
      · simp [delKey, getKey, h2, h3]
      · simp [delKey, getKey, h2, h3, ih]

theorem sortedKeys_applyEntity {m : InstMap α} {e : OfflineCacheEntity α}
    (h : SortedKeys m) : SortedKeys (applyEntity m e) := by
  by_cases hset : e.IsSet
  · simpa [applyEntity, hset] using sortedKeys_setKey h
  · simpa [applyEntity, hset] using sortedKeys_delKey h

theorem sortedKeys_decodeRecords (l : List (OfflineCacheEntity α))
    {m : InstMap α} (h : SortedKeys m) : SortedKeys (decodeRecords l m) := by
  induction l generalizing m with
  | nil => simpa [decodeRecords] using h
  | cons e rest ih =>
    simpa [decodeRecords] using ih (sortedKeys_applyEntity h)

theorem getKey_decodeRecords (l : List (OfflineCacheEntity α))
    (m : InstMap α) (hs : SortedKeys m) (k : String) :
    getKey k (decodeRecords l m) =
      match lastRecordFor k l with
      | some e => if e.IsSet then some e else none
      | none => getKey k m := by
  induction l generalizing m with
  | nil => simp [decodeRecords, lastRecordFor]
  | cons e rest ih =>
    have hstep : decodeRecords (e :: rest) m = decodeRecords rest (applyEntity m e) := by
      simp [decodeRecords]
    rw [hstep, ih (applyEntity m e) (sortedKeys_applyEntity hs)]
    rcases hlast : lastRecordFor k rest with _ | r
    · simp only [lastRecordFor, hlast]
      by_cases hid : e.ItemID = k
      · by_cases hset : e.IsSet
        · simp [applyEntity, hset, hid, getKey_setKey_self]
        · simp [applyEntity, hset, hid, getKey_delKey_self _ _ hs]
      · have hne : k ≠ e.ItemID := fun hc => hid hc.symm
        by_cases hset : e.IsSet
        · simp [applyEntity, hset, hid, getKey_setKey_ne _ _ _ _ hne]
        · simp [applyEntity, hset, hid, getKey_delKey_ne _ _ _ hne]
    · simp [lastRecordFor, hlast]

theorem readFilesInto_ok (files : List (SegFile α)) (m : InstMap α)
    (hok : ∀ f ∈ files, f.corrupt = false) :
    readFilesInto files m = .ok (decodeRecords (allRecords files) m) := by
  induction files generalizing m with
  | nil => simp [readFilesInto, allRecords, decodeRecords]
  | cons f rest ih =>
    have hf : f.corrupt = false := hok f (by simp)
    have hrest : ∀ g ∈ rest, g.corrupt = false := fun g hg => hok g (by simp [hg])
    simp only [readFilesInto, readAndDecodeFile, hf, Bool.false_eq_true,
      if_false, ih _ hrest]
    simp [allRecords, decodeRecords, List.foldl_append]

theorem find?_name_of_mem {dir : List (SegFile α)} {active : SegFile α}
    (hmem : active ∈ dir) (hnodup : (dir.map SegFile.name).Nodup) :
    dir.find? (fun f => f.name == active.name) = some active := by
  induction dir with
  | nil => exact absurd hmem (by simp)
  | cons g rest ih =>
    rw [List.map_cons] at hnodup
    rcases List.nodup_cons.mp hnodup with ⟨hg, hrest⟩
    rcases List.mem_cons.mp hmem with h | h
    · subst h
      rw [List.find?_cons, beq_self_eq_true]
    · have hne : (g.name == active.name) = false := by
        rw [beq_eq_false_iff_ne]
        intro hc
        exact hg (hc ▸ List.mem_map.mpr ⟨active, h, rfl⟩)
      rw [List.find?_cons, hne]
      exact ih h hrest

theorem eq_of_countP_eq_one {l : List (SegFile α)} {p : SegFile α → Bool}
    (hcount : l.countP p = 1) {a b : SegFile α}
    (ha : a ∈ l) (hpa : p a = true) (hb : b ∈ l) (hpb : p b = true) : a = b := by
  have hlen : (l.filter p).length = 1 := by
    rw [← List.countP_eq_length_filter]
    exact hcount
  rcases List.length_eq_one.mp hlen with ⟨x, hx⟩
  have ha' : a ∈ l.filter p := List.mem_filter.mpr ⟨ha, hpa⟩
  have hb' : b ∈ l.filter p := List.mem_filter.mpr ⟨hb, hpb⟩
  rw [hx, List.mem_singleton] at ha' hb'
  rw [ha', hb']

theorem lookup_eq_none_of_not_mem {β : Type} (l : List (String × β)) (k : String)
    (h : k ∉ l.map Prod.fst) : List.lookup k l = none := by
  induction l with
  | nil => rfl
  | cons p rest ih =>
    have hne : (k == p.1) = false := by
      rw [beq_eq_false_iff_ne]
      intro hc
      exact h (by simp [hc])
    rcases p with ⟨a, b⟩
    simp only [List.lookup, hne]
    exact ih fun hc => h (by simp; right; simpa using hc)

theorem lookup_isSome_append {β : Type} (l : List (String × β)) (k : String) (v : β) :
    (List.lookup k (l ++ [(k, v)])).isSome = true := by
  induction l with
  | nil => simp [List.lookup]
  | cons p rest ih =>
    rcases p with ⟨a, b⟩
    by_cases h : (k == a) = true
    · simp [List.lookup, h]
    · have h' : (k == a) = false := by
        cases hkb : (k == a)
        · rfl
        · exact absurd hkb h
      simp only [List.lookup, h']
      exact ih

theorem lookup_map_engine_isSome (cfg : List (String × CacheConfig)) (k : String)
    (h : (List.lookup k cfg).isSome = true) :
    (List.lookup k (cfg.map fun p => (p.1, (CacheEngine.empty : CacheEngine α)))).isSome
      = true := by
  induction cfg with
  | nil => exact absurd h (by simp [List.lookup])
  | cons p rest ih =>
    rcases p with ⟨a, b⟩
    by_cases hk : (k == a) = true
    · simp [List.lookup, hk]
    · have h' : (k == a) = false := by
        cases hkb : (k == a)
        · rfl
        · exact absurd hkb hk
      simp only [List.map_cons, List.lookup, h'] at h ⊢
      exact ih h

theorem cacheInstance_default (tc : TransCache α) :
    cacheInstance tc DefaultCacheInstance = tc.cache.lookup DefaultCacheInstance := by
  unfold cacheInstance
  rcases h : tc.cache.lookup DefaultCacheInstance with _ | c
  · rfl
  · rfl

theorem routedId_default (tc : TransCache α) :
    routedId tc DefaultCacheInstance = DefaultCacheInstance := by
  unfold routedId
  exact ite_self _

theorem lookup_isSome_of_mem {β : Type} {l : List (String × β)} {k : String}
    (h : k ∈ l.map Prod.fst) : (List.lookup k l).isSome = true := by
  induction l with
  | nil => exact absurd h (by simp)
  | cons p rest ih =>
    rcases p with ⟨a, b⟩
    by_cases hk : (k == a) = true
    · simp [List.lookup, hk]
    · have hk' : (k == a) = false := by
        cases hkb : (k == a)
        · rfl
        · exact absurd hkb hk
      simp only [List.lookup, hk']
      apply ih
      rw [List.map_cons] at h
      rcases List.mem_cons.mp h with h' | h'
      · exact absurd h' (by simpa using hk)
      · exact h'

theorem mem_keys_of_lookup_isSome {β : Type} {l : List (String × β)} {k : String}
    (h : (List.lookup k l).isSome = true) : k ∈ l.map Prod.fst := by
  induction l with
  | nil => exact absurd h (by simp [List.lookup])
  | cons p rest ih =>
    rcases p with ⟨a, b⟩
    by_cases hk : (k == a) = true
    · have : k = a := by simpa using hk
      simp [this]
    · have hk' : (k == a) = false := by
        cases hkb : (k == a)
        · rfl
        · exact absurd hkb hk
      simp only [List.lookup, hk'] at h
      simp [ih h]

theorem newTCOffline_keys {fldrPath : String} {l : List (String × List (SegFile α))}
    {ms : List (String × InstMap α)}
    (h : newTransCacheWithOfflineCollector fldrPath l = .ok ms) :
    ms.map Prod.fst = l.map Prod.fst := by
  induction l generalizing ms with
  | nil =>
    have h3 : (Except.ok ([] : List (String × InstMap α)) :
        Except String (List (String × InstMap α))) = Except.ok ms := h
    rw [← Except.ok.inj h3]
    rfl
  | cons p rest ih =>
    rcases p with ⟨nm, dir⟩
    rw [newTransCacheWithOfflineCollector] at h
    rcases hr : newCacheFromReader dir (pathJoin fldrPath nm) with e | m
    · rw [hr] at h
      cases h
    · rw [hr] at h
      rcases hrest : newTransCacheWithOfflineCollector fldrPath rest with e | ms'
      · rw [hrest] at h
        cases h
      · rw [hrest] at h
        have hms : ms = (nm, m) :: ms' := (Except.ok.inj h).symm
        rw [hms, List.map_cons, List.map_cons, ih hrest]

theorem routedOps_eq_default (tc : TransCache α) (chID itmID grpID prfx : String)
    (v : α) (gids : List String) (hnone : tc.cache.lookup chID = none) :
    cacheInstance tc chID = cacheInstance tc DefaultCacheInstance ∧
    TransCache.getOp tc chID itmID
      = TransCache.getOp tc DefaultCacheInstance itmID ∧
    TransCache.setOp tc chID itmID v gids
      = TransCache.setOp tc DefaultCacheInstance itmID v gids ∧
    TransCache.removeOp tc chID itmID
      = TransCache.removeOp tc DefaultCacheInstance itmID ∧
    TransCache.hasItemOp tc chID itmID
      = TransCache.hasItemOp tc DefaultCacheInstance itmID ∧
    TransCache.hasGroupOp tc chID grpID
      = TransCache.hasGroupOp tc DefaultCacheInstance grpID ∧
    TransCache.getItemIDsOp tc chID prfx
      = TransCache.getItemIDsOp tc DefaultCacheInstance prfx ∧
    TransCache.clearOp tc (some [chID])
      = TransCache.clearOp tc (some [DefaultCacheInstance]) ∧
    TransCache.getCacheStatsOp tc [chID]
      = [(chID, ((cacheInstance tc DefaultCacheInstance).map
          CacheEngine.stats).getD ⟨0, 0⟩)] := by
  have hci : cacheInstance tc chID = cacheInstance tc DefaultCacheInstance := by
    rw [cacheInstance_default]
    unfold cacheInstance
    rw [hnone]
  have hrid : routedId tc chID = DefaultCacheInstance := by
    unfold routedId
    rw [hnone]
    simp
  have hupd : ∀ f, updateInstance tc chID f
      = updateInstance tc DefaultCacheInstance f := by
    intro f
    unfold updateInstance
    rw [hrid, routedId_default]
  refine ⟨hci, ?_, hupd _, hupd _, ?_, ?_, ?_, ?_, ?_⟩
  · unfold TransCache.getOp
    rw [hci]
  · unfold TransCache.hasItemOp
    rw [hci]
  · unfold TransCache.hasGroupOp
    rw [hci]
  · unfold TransCache.getItemIDsOp
    rw [hci]
  · simp only [TransCache.clearOp, List.foldl_cons, List.foldl_nil]
    exact hupd _
  · simp only [TransCache.getCacheStatsOp, List.map_cons, List.map_nil, hci]

theorem getKey_some_mem {m : InstMap α} {k : String} {v : OfflineCacheEntity α}
    (h : getKey k m = some v) : (k, v) ∈ m := by
  induction m with
  | nil => exact absurd h (by simp [getKey])
  | cons p rest ih =>
    rcases p with ⟨k', v'⟩
    by_cases hk : k = k'
    · rw [getKey, if_pos hk] at h
      exact List.mem_cons.mpr (Or.inl (by rw [hk, Option.some.inj h]))
    · rw [getKey, if_neg hk] at h
      exact List.mem_cons.mpr (Or.inr (ih h))

theorem getKey_ne_none_of_mem {m : InstMap α} {k : String} {v : OfflineCacheEntity α}
    (h : (k, v) ∈ m) : getKey k m ≠ none := by
  induction m with
  | nil => cases h
  | cons p rest ih =>
    rcases p with ⟨k', v'⟩
    by_cases hk : k = k'
    · rw [getKey, if_pos hk]
      simp
    · rw [getKey, if_neg hk]
      rcases List.mem_cons.mp h with h' | h'
      · exact absurd (congrArg Prod.fst h') hk
      · exact ih h'

theorem lastRecordFor_mem {l : List (OfflineCacheEntity α)} {k : String}
    {e : OfflineCacheEntity α} (h : lastRecordFor k l = some e) :
    e ∈ l ∧ e.ItemID = k := by
  induction l with
  | nil => exact absurd h (by simp [lastRecordFor])
  | cons a rest ih =>
    rw [lastRecordFor] at h
    rcases hr : lastRecordFor k rest with _ | r
    · rw [hr] at h
      by_cases ha : a.ItemID = k
      · rw [if_pos ha] at h
        refine ⟨List.mem_cons.mpr (Or.inl (Option.some.inj h).symm), ?_⟩
        rw [← Option.some.inj h]
        exact ha
      · rw [if_neg ha] at h
        cases h
    · rw [hr] at h
      obtain ⟨h1, h2⟩ := ih (hr.trans h)
      exact ⟨List.mem_cons.mpr (Or.inr h1), h2⟩

theorem lastRecordFor_eq_none {l : List (OfflineCacheEntity α)} {k : String}
    (h : ∀ e ∈ l, e.ItemID ≠ k) : lastRecordFor k l = none := by
  induction l with
  | nil => rfl
  | cons a rest ih =>
    have hrest : lastRecordFor k rest = none := ih fun e he => h e (by simp [he])
    rw [lastRecordFor, hrest, if_neg (h a (by simp))]

theorem lastRecordFor_eq_some_of_nodup {l : List (OfflineCacheEntity α)}
    (hn : (l.map OfflineCacheEntity.ItemID).Nodup) {e : OfflineCacheEntity α}
    {k : String} (he : e ∈ l) (hk : e.ItemID = k) : lastRecordFor k l = some e := by
  induction l with
  | nil => cases he
  | cons a rest ih =>
    rw [List.map_cons] at hn
    rcases List.nodup_cons.mp hn with ⟨ha, hrest⟩
    rcases List.mem_cons.mp he with h | h
    · subst h
      have hnone : lastRecordFor k rest = none := by
        apply lastRecordFor_eq_none
        intro r hr hrk
        apply ha
        rw [hk, ← hrk]
        exact List.mem_map.mpr ⟨r, hr, rfl⟩
      rw [lastRecordFor, hnone, if_pos hk]
    · rw [lastRecordFor, ih hrest h]

theorem wfEntries_applyEntity {m : InstMap α} {e : OfflineCacheEntity α}
    (h : WFEntries m) : WFEntries (applyEntity m e) := by
  unfold applyEntity
  by_cases hset : e.IsSet = true
  · rw [if_pos hset]
    intro p hp
    rcases mem_setKey hp with h' | h'
    · rw [h']
      exact ⟨hset, rfl⟩
    · exact h p h'
  · rw [if_neg hset]
    intro p hp
    exact h p (mem_delKey hp)

theorem wfEntries_decodeRecords (l : List (OfflineCacheEntity α)) {m : InstMap α}
    (h : WFEntries m) : WFEntries (decodeRecords l m) := by
  induction l generalizing m with
  | nil => exact h
  | cons e rest ih => exact ih (wfEntries_applyEntity h)

theorem map_itemID_values {m : InstMap α} (h : WFEntries m) :
    (m.map Prod.snd).map OfflineCacheEntity.ItemID = m.map Prod.fst := by
  induction m with
  | nil => rfl
  | cons p rest ih =>
    have hp := h p (by simp)
    simp only [List.map_cons]
    rw [hp.2, ih fun q hq => h q (by simp [hq])]

theorem readFilesInto_ok_inv (files : List (SegFile α)) (m0 m : InstMap α)
    (h : readFilesInto files m0 = .ok m) :
    (∀ f ∈ files, f.corrupt = false) ∧ m = decodeRecords (allRecords files) m0 := by
  induction files generalizing m0 with
  | nil =>
    refine ⟨by simp, ?_⟩
    have h' : m0 = m := by
      simpa [readFilesInto] using h
    simp [allRecords, decodeRecords, ← h']
  | cons f rest ih =>
    cases hcorr : f.corrupt with
    | true =>
      rw [readFilesInto, readAndDecodeFile, if_pos hcorr] at h
      cases h
    | false =>
      rw [readFilesInto, readAndDecodeFile, if_neg (by rw [hcorr]; exact Bool.false_ne_true)] at h
      obtain ⟨hall, heq⟩ := ih _ h
      refine ⟨?_, ?_⟩
      · intro g hg
        rcases List.mem_cons.mp hg with h' | h'
        · rw [h']
          exact hcorr
        · exact hall g h'
      · rw [heq]
        simp [allRecords, decodeRecords, List.foldl_append]

theorem allRecords_append (a b : List (SegFile α)) :
    allRecords (a ++ b) = allRecords a ++ allRecords b := by
  simp [allRecords]

theorem zeroFilesFrom_facts (fldr : String) (total millis : Nat)
    (chunks : List (List (OfflineCacheEntity α))) : ∀ i : Nat,
    allRecords (zeroFilesFrom fldr total millis i chunks) = chunks.flatten ∧
      ∀ f ∈ zeroFilesFrom fldr total millis i chunks, f.corrupt = false := by
  induction chunks with
  | nil => intro i; exact ⟨rfl, by simp [zeroFilesFrom]⟩
  | cons c rest ih =>
    intro i
    obtain ⟨h1, h2⟩ := ih (i + 1)
    refine ⟨?_, ?_⟩
    · show allRecords (⟨zeroRewriteName fldr i total millis, c, false⟩ ::
        zeroFilesFrom fldr total millis (i + 1) rest) = (c :: rest).flatten
      rw [show (⟨zeroRewriteName fldr i total millis, c, false⟩ ::
          zeroFilesFrom fldr total millis (i + 1) rest : List (SegFile α))
          = [⟨zeroRewriteName fldr i total millis, c, false⟩] ++
            zeroFilesFrom fldr total millis (i + 1) rest from rfl,
        allRecords_append, h1]
      simp [allRecords]
    · intro f hf
      rcases List.mem_cons.mp hf with h' | h'
      · rw [h']
      · exact h2 f h'

theorem writeTmpLoop_ok (writeLimit : Int) (sz : OfflineCacheEntity α → Nat)
    (encodeFails : OfflineCacheEntity α → Bool) (l : List (OfflineCacheEntity α))
    (hl : ∀ e ∈ l, encodeFails e = false) :
    ∀ (done : List (List (OfflineCacheEntity α))) (cur : List (OfflineCacheEntity α))
      (n : Nat),
      ∃ r, writeTmpLoop writeLimit sz encodeFails l done cur n = .ok r ∧
        r.flatten = done.flatten ++ cur.reverse ++ l := by
  induction l with
  | nil =>
    intro done cur n
    exact ⟨done ++ [cur.reverse], rfl, by simp⟩
  | cons e rest ih =>
    intro done cur n
    have he : encodeFails e = false := hl e (by simp)
    have hne : ¬ encodeFails e = true := by
      rw [he]
      exact Bool.false_ne_true
    have hrest : ∀ e' ∈ rest, encodeFails e' = false := fun e' h' => hl e' (by simp [h'])
    by_cases hrot : writeLimit > 0 ∧ (n : Int) > writeLimit * 1024 * 1024
    · obtain ⟨r, hr, hflat⟩ := ih hrest (done ++ [cur.reverse]) [e] (sz e)
      refine ⟨r, ?_, ?_⟩
      · rw [writeTmpLoop, if_pos hrot, if_neg hne]
        exact hr
      · rw [hflat]
        simp
    · obtain ⟨r, hr, hflat⟩ := ih hrest done (e :: cur) (n + sz e)
      refine ⟨r, ?_, ?_⟩
      · rw [writeTmpLoop, if_neg hrot, if_neg hne]
        exact hr
      · rw [hflat]
        simp

theorem sorted_getKey_ext {m m' : InstMap α} (hs : SortedKeys m) (hs' : SortedKeys m')
    (h : ∀ k, getKey k m = getKey k m') : m = m' := by
  induction m generalizing m' with
  | nil =>
    cases m' with
    | nil => rfl
    | cons q rest' =>
      exfalso
      have hq := h q.1
      rcases q with ⟨k', v'⟩
      rw [getKey, getKey, if_pos rfl] at hq
      cases hq
  | cons p rest ih =>
    cases m' with
    | nil =>
      exfalso
      have hp := h p.1
      rcases p with ⟨k, v⟩
      rw [getKey, getKey, if_pos rfl] at hp
      cases hp
    | cons q rest' =>
      rcases p with ⟨k, v⟩
      rcases q with ⟨k', v'⟩
      rcases List.pairwise_cons.mp hs with ⟨hall, htail⟩
      rcases List.pairwise_cons.mp hs' with ⟨hall', htail'⟩
      rcases strLt_trichotomy k k' with hlt | heq | hgt
      · exfalso
        have hk := h k
        rw [getKey, if_pos rfl] at hk
        have hnone : getKey k ((k', v') :: rest') = none := by
          apply getKey_none_of_keys_ne
          intro r hr
          rcases List.mem_cons.mp hr with h' | h'
          · rw [h']
            exact Ne.symm (strLt_ne hlt)
          · exact Ne.symm (strLt_ne (strLt_trans hlt (hall' r h')))
        rw [hnone] at hk
        cases hk
      · have hv : v = v' := by
          have hk := h k
          rw [getKey, if_pos rfl, getKey, if_pos heq] at hk
          exact Option.some.inj hk
        have htl : rest = rest' := by
          apply ih htail htail'
          intro j
          by_cases hj : j = k
          · subst hj
            have h1 : getKey j rest = none := getKey_none_of_keys_ne j rest
              fun r hr => Ne.symm (strLt_ne (hall r hr))
            have h2 : getKey j rest' = none := getKey_none_of_keys_ne j rest'
              fun r hr => Ne.symm (strLt_ne (by rw [heq]; exact hall' r hr))
            rw [h1, h2]
          · have hk := h j
            rw [getKey, if_neg hj, getKey, if_neg (heq ▸ hj)] at hk
            exact hk
        rw [heq, hv, htl]
      · exfalso
        have hk := h k'
        have hnone : getKey k' ((k, v) :: rest) = none := by
          rw [getKey, if_neg (strLt_ne hgt)]
          exact getKey_none_of_keys_ne k' rest
            fun r hr => Ne.symm (strLt_ne (strLt_trans hgt (hall r hr)))
        rw [hnone, getKey, if_pos rfl] at hk
        cases hk

theorem getKey_decodeRecords_perm (m : InstMap α) (hs : SortedKeys m)
    (hw : WFEntries m) (order : List (OfflineCacheEntity α))
    (horder : order.Perm (m.map Prod.snd)) (k : String) :
    getKey k (decodeRecords order []) = getKey k m := by
  have hkeys : (m.map Prod.fst).Nodup := by
    rw [List.Nodup, List.pairwise_map]
    exact hs.imp fun h => strLt_ne h
  have hvals : ((m.map Prod.snd).map OfflineCacheEntity.ItemID).Nodup := by
    rw [map_itemID_values hw]
    exact hkeys
  have hnodup : (order.map OfflineCacheEntity.ItemID).Nodup :=
    ((horder.map OfflineCacheEntity.ItemID).nodup_iff).mpr hvals
  rw [getKey_decodeRecords order [] List.Pairwise.nil k]
  rcases hg : getKey k m with _ | v
  · rcases hl : lastRecordFor k order with _ | e
    · rfl
    · exfalso
      obtain ⟨hmem, hid⟩ := lastRecordFor_mem hl
      obtain ⟨p, hp, hpe⟩ := List.mem_map.mp (horder.mem_iff.mp hmem)
      have hw' := hw p hp
      have hk : p.1 = k := by
        rw [← hw'.2, hpe, hid]
      have hmem2 : (k, e) ∈ m := by
        have hpke : p = (k, e) := by
          rcases p with ⟨a, b⟩
          simp only at hpe hk
          rw [hpe, hk]
        rw [← hpke]
        exact hp
      exact getKey_ne_none_of_mem hmem2 hg
  · have hmem : (k, v) ∈ m := getKey_some_mem hg
    have hwv := hw (k, v) hmem
    have hvo : v ∈ order := horder.mem_iff.mpr (List.mem_map.mpr ⟨(k, v), hmem, rfl⟩)
    have hl : lastRecordFor k order = some v :=
      lastRecordFor_eq_some_of_nodup hnodup hvo hwv.2
    have hset : v.IsSet = true := hwv.1
    rw [hl]
    simp [hset]

theorem newTransCache_keys (cfg : List (String × CacheConfig)) :
    ((NewTransCache α cfg).cache.map Prod.fst)
      = (ensureDefaultCfg cfg).map Prod.fst := by
  unfold NewTransCache
  simp [List.map_map, Function.comp]

theorem default_mem_keys_ensureDefaultCfg (cfg : List (String × CacheConfig)) :
    DefaultCacheInstance ∈ (ensureDefaultCfg cfg).map Prod.fst := by
  unfold ensureDefaultCfg
  by_cases hd : (cfg.lookup DefaultCacheInstance).isSome
  · rw [if_pos hd]
    exact mem_keys_of_lookup_isSome hd
  · rw [if_neg hd, List.map_append]
    exact List.mem_append.mpr (Or.inr (by simp))

theorem not_mem_keys_ensureDefaultCfg {cfg : List (String × CacheConfig)}
    {chID : String} (hcfg : chID ∉ cfg.map Prod.fst)
    (hnd : chID ≠ DefaultCacheInstance) :
    chID ∉ (ensureDefaultCfg cfg).map Prod.fst := by
  unfold ensureDefaultCfg
  by_cases hd : (cfg.lookup DefaultCacheInstance).isSome
  · rw [if_pos hd]
    exact hcfg
  · rw [if_neg hd, List.map_append]
    intro hc
    rcases List.mem_append.mp hc with hc | hc
    · exact hcfg hc
    · simp only [List.map_cons, List.map_nil, List.mem_singleton] at hc
      exact hnd hc

/-! ### Claim theorems -/

/-- Claim C2: on startup classification, when at least one path carries the
`oldRewrite` name every `0Rewrite*` path is deleted from disk and excluded
from the returned list, every `tmpRewrite*` path is deleted and excluded
unconditionally, and the remaining paths are returned unchanged, in their
original order. -/
theorem validateFilePaths_classification (paths : List String) (fileName : String) :
    ((∃ p ∈ paths, strHasPfx (pathJoin fileName oldRewriteName) p = true) →
      ∀ p ∈ paths, strHasPfx (pathJoin fileName rewriteFileName) p = true →
        p ∈ (validateFilePaths paths fileName).2 ∧
          p ∉ (validateFilePaths paths fileName).1) ∧
    (∀ p ∈ paths, strHasPfx (pathJoin fileName tmpRewriteName) p = true →
      p ∈ (validateFilePaths paths fileName).2 ∧
        p ∉ (validateFilePaths paths fileName).1) ∧
    (validateFilePaths paths fileName).1 =
      paths.filter (keepPath fileName
        (paths.any fun s => strHasPfx (pathJoin fileName oldRewriteName) s)) := by
  have hval := validatePathsLoop_eq_filter fileName
    (paths.any fun s => strHasPfx (pathJoin fileName oldRewriteName) s) paths
  refine ⟨?_, ?_, ?_⟩
  · intro hold p hp hzero
    have hany : (paths.any fun s =>
        strHasPfx (pathJoin fileName oldRewriteName) s) = true := by
      rcases hold with ⟨q, hq, hqold⟩
      exact List.any_eq_true.mpr ⟨q, hq, hqold⟩
    have hkeep : keepPath fileName
        (paths.any fun s => strHasPfx (pathJoin fileName oldRewriteName) s) p = false := by
      simp [keepPath, hany, hzero]
    constructor
    · simp only [validateFilePaths, hval, List.mem_filter]
      exact ⟨hp, by simp [hkeep]⟩
    · simp only [validateFilePaths, hval, List.mem_filter]
      intro hcon
      exact absurd hcon.2 (by simp [hkeep])
  · intro p hp htmp
    have hkeep : keepPath fileName
        (paths.any fun s => strHasPfx (pathJoin fileName oldRewriteName) s) p = false := by
      simp [keepPath, htmp]
    constructor
    · simp only [validateFilePaths, hval, List.mem_filter]
      exact ⟨hp, by simp [hkeep]⟩
    · simp only [validateFilePaths, hval, List.mem_filter]
      intro hcon
      exact absurd hcon.2 (by simp [hkeep])
  · simp only [validateFilePaths, hval]

/-- Witness for claim C2 at a concrete directory listing: with an
`oldRewrite0` present, the `0Rewrite0_1` and `tmpRewrite` entries are
deleted and only the remaining paths survive, in order. -/
theorem validateFilePaths_classification_witness :
    "i/0Rewrite0_1" ∈ (validateFilePaths
        ["i/0Rewrite0_1", "i/oldRewrite0", "i/tmpRewrite", "i/170"] "i").2 ∧
      "i/0Rewrite0_1" ∉ (validateFilePaths
        ["i/0Rewrite0_1", "i/oldRewrite0", "i/tmpRewrite", "i/170"] "i").1 := by
  have h := validateFilePaths_classification
    ["i/0Rewrite0_1", "i/oldRewrite0", "i/tmpRewrite", "i/170"] "i"
  exact h.1 ⟨"i/oldRewrite0", by decide, by decide⟩ "i/0Rewrite0_1" (by decide) (by decide)

/-- Claim C3: startup replay folds the decoded records in file order: a SET
record overwrites the binding of its item id, a REMOVE record deletes that
binding regardless of its value, group and expiry fields, and the resulting
map binds each item id to the last SET record not followed by a later record
for that id — the minimal state. -/
theorem readInstanceFromFiles_lastWins (files : List (SegFile α))
    (hok : ∀ f ∈ files, f.corrupt = false) :
    readInstanceFromFiles files = .ok (decodeRecords (allRecords files) []) ∧
    (∀ k, getKey k (decodeRecords (allRecords files) []) =
      match lastRecordFor k (allRecords files) with
      | some e => if e.IsSet then some e else none
      | none => none) ∧
    (∀ (inst : InstMap α) (e : OfflineCacheEntity α), e.IsSet = false →
      applyEntity inst e = delKey e.ItemID inst) := by
  refine ⟨readFilesInto_ok files [] hok, ?_, ?_⟩
  · intro k
    rw [getKey_decodeRecords (allRecords files) [] List.Pairwise.nil k]
    rcases lastRecordFor k (allRecords files) with _ | e
    · rfl
    · rfl
  · intro inst e he
    simp [applyEntity, he]

/-- Witness for claim C3 at a one-file directory holding a SET of `k`
followed by a REMOVE of `k` carrying arbitrary payload fields. -/
theorem readInstanceFromFiles_lastWins_witness :
    readInstanceFromFiles
        ([⟨"i/100", [⟨true, "k", 1, [], 0⟩, ⟨false, "k", 7, ["g"], 9⟩], false⟩] :
          List (SegFile Nat)) =
      .ok (decodeRecords (allRecords
        ([⟨"i/100", [⟨true, "k", 1, [], 0⟩, ⟨false, "k", 7, ["g"], 9⟩], false⟩] :
          List (SegFile Nat))) []) :=
  (readInstanceFromFiles_lastWins _ (by decide)).1

/-- Claim C5: a decode hitting end-of-stream ends that file's replay with no
error; any other decode failure aborts replay with an error whose message
contains the offending file's path, and the bundle constructor then fails
with that error, returning no bundle. -/
theorem replay_decode_error_handling (f : SegFile α) (inst : InstMap α)
    (fldrPath chInstance : String) (dir : List (SegFile α)) (e : String) :
    (f.corrupt = false →
      readAndDecodeFile f inst = .ok (decodeRecords f.records inst)) ∧
    (f.corrupt = true →
      readAndDecodeFile f inst = .error (decodeErrMsg f.name) ∧
        f.name.toList <:+: (decodeErrMsg f.name).toList) ∧
    (newCacheFromReader dir (pathJoin fldrPath chInstance) = .error e →
      newTransCacheWithOfflineCollector fldrPath [(chInstance, dir)] = .error e) := by
  refine ⟨?_, ?_, ?_⟩
  · intro h
    simp [readAndDecodeFile, h]
  · intro h
    refine ⟨by simp [readAndDecodeFile, h], ?_⟩
    refine ⟨"failed to decode OfflineCacheEntity at <".toList, ">".toList, ?_⟩
    simp [decodeErrMsg]
  · intro h
    simp [newTransCacheWithOfflineCollector, h]

/-- Witness for claim C5: a single corrupt (truncated mid-record) segment
makes the bundle constructor fail with the error naming that segment. -/
theorem replay_decode_error_handling_witness :
    newTransCacheWithOfflineCollector "r"
        [("c", ([⟨"r/c/5", [], true⟩] : List (SegFile Nat)))] =
      .error (decodeErrMsg "r/c/5") :=
  (replay_decode_error_handling (⟨"r/c/5", [], true⟩ : SegFile Nat) [] "r" "c"
      [⟨"r/c/5", [], true⟩] (decodeErrMsg "r/c/5")).2.2 rfl

/-- Claim C4 evaluated at its failing input (code bug): when a `gob` encode
fails in step 5, the deferred cleanup of `rewriteFiles` checks the outer
`err` variable while the failing error only reached a shadowed local, so the
temp files created by the run are not deleted: here the `tmpRewrite` file is
still present in the directory afterwards (no rename and no deletion of the
enumerated segments happen, as the claim says, but the temp file survives). -/
theorem rewriteFiles_encode_failure_leaves_tmp :
    ((rewriteFiles ([⟨"i/100", [⟨true, "k", 0, [], 0⟩], false⟩] : List (SegFile Nat))
        "i" "i/100" (-1) (fun _ => 1) [⟨true, "k", 0, [], 0⟩] (fun _ => true)
        200).dir.map SegFile.name).contains (pathJoin "i" tmpRewriteName) = true ∧
    ((rewriteFiles ([⟨"i/100", [⟨true, "k", 0, [], 0⟩], false⟩] : List (SegFile Nat))
        "i" "i/100" (-1) (fun _ => 1) [⟨true, "k", 0, [], 0⟩] (fun _ => true)
        200).renamed = false ∧
      (rewriteFiles ([⟨"i/100", [⟨true, "k", 0, [], 0⟩], false⟩] : List (SegFile Nat))
        "i" "i/100" (-1) (fun _ => 1) [⟨true, "k", 0, [], 0⟩] (fun _ => true)
        200).deletedOld = false) := by
  refine ⟨by decide, by decide, by decide⟩

/-- Claim C7: the write path never rotates when the write limit is `-1`;
for any other limit the open segment is closed and a fresh one opened
exactly when its size strictly exceeds `writeLimit * 1024 * 1024` bytes. -/
theorem writeEntity_rotation_iff (writeLimit : Int)
    (sz : OfflineCacheEntity α → Nat) (st : WriterState α)
    (oce : OfflineCacheEntity α) :
    (writeLimit = -1 → checkAndRotateFile writeLimit st = st ∧
      (writeEntity writeLimit sz st oce).rotatedSegments = st.rotatedSegments) ∧
    (writeLimit ≠ -1 →
      ((writeEntity writeLimit sz st oce).rotatedSegments
          = st.rotatedSegments ++ [st.fileRecords] ↔
        (st.byteSize : Int) > writeLimit * 1024 * 1024) ∧
      ((writeEntity writeLimit sz st oce).rotatedSegments = st.rotatedSegments ↔
        ¬ (st.byteSize : Int) > writeLimit * 1024 * 1024)) := by
  constructor
  · intro h
    simp [checkAndRotateFile, writeEntity, h]
  · intro h
    by_cases hsz : (st.byteSize : Int) > writeLimit * 1024 * 1024
    · simp [checkAndRotateFile, writeEntity, h, hsz]
    · simp [checkAndRotateFile, writeEntity, h, hsz]

/-- Witness for claim C7: with a 1 MiB limit, a 2 MiB segment is rotated. -/
theorem writeEntity_rotation_iff_witness :
    (writeEntity 1 (fun _ => 1)
        (⟨[], 2097153, []⟩ : WriterState Nat)
        ⟨true, "k", 0, [], 0⟩).rotatedSegments = [] ++ [[]] :=
  ((writeEntity_rotation_iff 1 (fun _ => 1) ⟨[], 2097153, []⟩
      ⟨true, "k", 0, [], 0⟩).2 (by decide)).1.mpr (by decide)

/-- Claim C1: for every directory state whose replay succeeds and every
successful compaction run (any map iteration order, any chunking produced by
the write limit), replaying the directory left behind by `rewriteFiles`
yields the same item-id-to-record map as replaying the directory it started
from. -/
theorem rewriteFiles_preserves_replay (dir : List (SegFile α))
    (fldr activeName : String) (writeLimit : Int)
    (sz : OfflineCacheEntity α → Nat) (order : List (OfflineCacheEntity α))
    (encodeFails : OfflineCacheEntity α → Bool) (millis : Nat) (m : InstMap α)
    (hreplay : readInstanceFromFiles dir = .ok m)
    (horder : order.Perm (m.map Prod.snd))
    (henc : ∀ e ∈ order, encodeFails e = false) :
    readInstanceFromFiles
        (rewriteFiles dir fldr activeName writeLimit sz order encodeFails millis).dir
      = readInstanceFromFiles dir := by
  obtain ⟨hnc, hm⟩ := readFilesInto_ok_inv dir [] m hreplay
  have hsm : SortedKeys m := by
    rw [hm]
    exact sortedKeys_decodeRecords _ List.Pairwise.nil
  have hwm : WFEntries m := by
    rw [hm]
    exact wfEntries_decodeRecords _ fun p hp => absurd hp (by simp)
  obtain ⟨chunks, hch, hflat⟩ := writeTmpLoop_ok writeLimit sz encodeFails order henc [] [] 0
  have hch2 : writeTmpChunks writeLimit sz encodeFails order = .ok chunks := hch
  have hflat2 : chunks.flatten = order := by
    simpa using hflat
  unfold rewriteFiles
  by_cases hskip : shouldSkipRewrite dir fldr activeName sz = true
  · rw [if_pos hskip]
  · rw [if_neg hskip]
    simp only [hreplay, hch2]
    obtain ⟨hrecs, hncz⟩ := zeroFilesFrom_facts fldr chunks.length millis chunks 0
    have hall : ∀ f ∈ zeroFilesFrom fldr chunks.length millis 0 chunks ++
        [(newActiveSeg fldr millis : SegFile α)], f.corrupt = false := by
      intro f hf
      rcases List.mem_append.mp hf with h | h
      · exact hncz f h
      · simp only [List.mem_singleton] at h
        rw [h]
        rfl
    rw [readInstanceFromFiles, readFilesInto_ok _ _ hall, allRecords_append, hrecs,
      hflat2]
    have hact : allRecords ([newActiveSeg fldr millis] : List (SegFile α)) = [] := rfl
    rw [hact, List.append_nil]
    congr 1
    apply sorted_getKey_ext (sortedKeys_decodeRecords _ List.Pairwise.nil) hsm
    intro k
    exact getKey_decodeRecords_perm m hsm hwm order horder k

/-- Witness for claim C1: a directory with one segment holding two SETs and
one REMOVE compacts to a snapshot replaying to the same single-item map. -/
theorem rewriteFiles_preserves_replay_witness :
    readInstanceFromFiles
        (rewriteFiles
          ([⟨"i/100", [⟨true, "b", 1, [], 0⟩, ⟨true, "a", 2, [], 0⟩,
              ⟨false, "b", 0, [], 0⟩], false⟩] : List (SegFile Nat))
          "i" "i/100" (-1) (fun _ => 1) [⟨true, "a", 2, [], 0⟩] (fun _ => false)
          200).dir
      = readInstanceFromFiles
          ([⟨"i/100", [⟨true, "b", 1, [], 0⟩, ⟨true, "a", 2, [], 0⟩,
              ⟨false, "b", 0, [], 0⟩], false⟩] : List (SegFile Nat)) :=
  rewriteFiles_preserves_replay
    ([⟨"i/100", [⟨true, "b", 1, [], 0⟩, ⟨true, "a", 2, [], 0⟩,
        ⟨false, "b", 0, [], 0⟩], false⟩] : List (SegFile Nat))
    "i" "i/100" (-1) (fun _ => 1) [⟨true, "a", 2, [], 0⟩] (fun _ => false) 200
    [("a", ⟨true, "a", 2, [], 0⟩)] (by rfl) (List.Perm.refl _) (by simp)

/-- Claim C6: a `rewriteFiles` call replays, writes, renames and deletes
nothing — returning the directory untouched — exactly when the enumerated
folder holds exactly one file not carrying the `0Rewrite` name (that one
file being the open active segment) and that file's size is zero. -/
theorem rewriteFiles_skip_iff (dir : List (SegFile α)) (fldr activeName : String)
    (writeLimit : Int) (sz : OfflineCacheEntity α → Nat)
    (order : List (OfflineCacheEntity α)) (encodeFails : OfflineCacheEntity α → Bool)
    (millis : Nat) (active : SegFile α) (hmem : active ∈ dir)
    (hname : active.name = activeName)
    (hnz : strHasPfx (pathJoin fldr rewriteFileName) active.name = false)
    (hnodup : (dir.map SegFile.name).Nodup) :
    ((rewriteFiles dir fldr activeName writeLimit sz order encodeFails millis).replayed
        = false ∧
      (rewriteFiles dir fldr activeName writeLimit sz order encodeFails millis).wroteTmp
        = false ∧
      (rewriteFiles dir fldr activeName writeLimit sz order encodeFails millis).renamed
        = false ∧
      (rewriteFiles dir fldr activeName writeLimit sz order encodeFails millis).deletedOld
        = false ∧
      (rewriteFiles dir fldr activeName writeLimit sz order encodeFails millis).dir
        = dir) ↔
    (countNonRewrite dir fldr = 1 ∧
      ∀ f ∈ dir, strHasPfx (pathJoin fldr rewriteFileName) f.name = false →
        fileSize sz f = 0) := by
  have hsize : activeFileSize dir activeName sz = fileSize sz active := by
    unfold activeFileSize
    rw [← hname, find?_name_of_mem hmem hnodup]
  by_cases hskip : shouldSkipRewrite dir fldr activeName sz = true
  · have hout : rewriteFiles dir fldr activeName writeLimit sz order encodeFails millis
        = ⟨dir, false, false, false, false⟩ := by
      unfold rewriteFiles
      rw [if_pos hskip]
    have hcond := hskip
    unfold shouldSkipRewrite at hcond
    rw [Bool.and_eq_true] at hcond
    have hc1 : countNonRewrite dir fldr = 1 := by
      have h := hcond.1
      simpa using h
    have hc2 : activeFileSize dir activeName sz = 0 := by
      have h := hcond.2
      simpa using h
    constructor
    · intro _
      refine ⟨hc1, ?_⟩
      intro f hf hfz
      have hc1' : dir.countP
          (fun g => !(strHasPfx (pathJoin fldr rewriteFileName) g.name)) = 1 := by
        unfold countNonRewrite at hc1
        exact hc1
      have hfa : f = active :=
        eq_of_countP_eq_one hc1' hf (by simp [hfz]) hmem (by simp [hnz])
      rw [hfa, ← hsize]
      exact hc2
    · intro _
      rw [hout]
      exact ⟨rfl, rfl, rfl, rfl, rfl⟩
  · constructor
    · intro hL
      exfalso
      have hrep : (rewriteFiles dir fldr activeName writeLimit sz order
          encodeFails millis).replayed = true := by
        unfold rewriteFiles
        rw [if_neg hskip]
        rcases hr : readInstanceFromFiles dir with e | m
        · rfl
        · rcases hw : writeTmpChunks writeLimit sz encodeFails order with c | c
          · rfl
          · rfl
      rw [hL.1] at hrep
      exact Bool.false_ne_true hrep
    · intro hR
      exfalso
      apply hskip
      have h0 : activeFileSize dir activeName sz = 0 := by
        rw [hsize]
        exact hR.2 active hmem hnz
      unfold shouldSkipRewrite
      simp [hR.1, h0]

/-- Witness for claim C6: a directory holding only one empty active segment
is left untouched by compaction. -/
theorem rewriteFiles_skip_iff_witness :
    (rewriteFiles ([⟨"i/100", [], false⟩] : List (SegFile Nat)) "i" "i/100" (-1)
        (fun _ => 1) [] (fun _ => false) 200).replayed = false ∧
      (rewriteFiles ([⟨"i/100", [], false⟩] : List (SegFile Nat)) "i" "i/100" (-1)
        (fun _ => 1) [] (fun _ => false) 200).wroteTmp = false ∧
      (rewriteFiles ([⟨"i/100", [], false⟩] : List (SegFile Nat)) "i" "i/100" (-1)
        (fun _ => 1) [] (fun _ => false) 200).renamed = false ∧
      (rewriteFiles ([⟨"i/100", [], false⟩] : List (SegFile Nat)) "i" "i/100" (-1)
        (fun _ => 1) [] (fun _ => false) 200).deletedOld = false ∧
      (rewriteFiles ([⟨"i/100", [], false⟩] : List (SegFile Nat)) "i" "i/100" (-1)
        (fun _ => 1) [] (fun _ => false) 200).dir = [⟨"i/100", [], false⟩] :=
  (rewriteFiles_skip_iff ([⟨"i/100", [], false⟩] : List (SegFile Nat)) "i" "i/100"
      (-1) (fun _ => 1) [] (fun _ => false) 200 ⟨"i/100", [], false⟩
      (by decide) rfl (by decide) (by decide)).mpr ⟨by decide, by decide⟩

/-- Claim C8 counterexample: with `dumpInterval = 0` the constructor's
`RewriteAll` call returns before compacting anything, so `rewriteInterval
= -1` does not produce a startup compaction, and `rewriteInterval = -2`
does not produce a shutdown compaction. -/
theorem rewrite_sentinels_counterexample :
    startupRewriteCount 0 (-1) = 0 ∧ ¬ startupRewriteCount 0 (-1) = 1 ∧
      shutdownRewriteCount 0 (-2) = 0 ∧ ¬ shutdownRewriteCount 0 (-2) = 1 := by
  refine ⟨by decide, by decide, by decide, by decide⟩

/-- Claim C8 (amended: requires `dumpInterval ≠ 0`): with persistence
enabled, `rewriteInterval = -1` compacts every instance exactly once at the
end of startup replay and starts no compactor timer, and `rewriteInterval
= -2` compacts nothing at startup, starts no timer, and compacts every
instance exactly once during `Shutdown`. -/
theorem rewrite_sentinels_amended (d : Int) (hd : d ≠ 0) :
    (startupRewriteCount d (-1) = 1 ∧ startupRewriteTimer d (-1) = false) ∧
      (startupRewriteCount d (-2) = 0 ∧ startupRewriteTimer d (-2) = false ∧
        shutdownRewriteCount d (-2) = 1) := by
  refine ⟨⟨?_, ?_⟩, ?_, ?_, ?_⟩ <;>
    simp [startupRewriteCount, rewriteAllCount, startupRewriteTimer,
      shutdownRewriteCount, hd]

/-- Witness for the amended claim C8 at `dumpInterval = 5`. -/
theorem rewrite_sentinels_amended_witness :
    (startupRewriteCount 5 (-1) = 1 ∧ startupRewriteTimer 5 (-1) = false) ∧
      (startupRewriteCount 5 (-2) = 0 ∧ startupRewriteTimer 5 (-2) = false ∧
        shutdownRewriteCount 5 (-2) = 1) :=
  rewrite_sentinels_amended 5 (by decide)

/-- Claim C10: `GetCloned` returns `ErrNotFound` exactly when the item is
absent; a present stored `nil` returns `(nil, nil)` without consulting the
clone capability; `ErrNotClonable` arises only for a present, non-`nil`
value lacking the `Cloner` capability. -/
theorem getCloned_error_taxonomy (tc : TransCache GoValue) (chID itmID : String) :
    (TransCache.getClonedOp tc chID itmID = .error .errNotFound ↔
      TransCache.getOp tc chID itmID = none) ∧
    (TransCache.getOp tc chID itmID = some .nilV →
      TransCache.getClonedOp tc chID itmID = .ok none) ∧
    (TransCache.getClonedOp tc chID itmID = .error .errNotClonable →
      ∃ v, TransCache.getOp tc chID itmID = some v ∧ v ≠ .nilV ∧
        implementsCloner v = false) := by
  rcases hv : TransCache.getOp tc chID itmID with _ | v
  · exact ⟨by simp [TransCache.getClonedOp, hv], by simp,
      by simp [TransCache.getClonedOp, hv]⟩
  · refine ⟨?_, ?_, ?_⟩
    · constructor
      · intro hcon
        exfalso
        rcases v with _ | s | ⟨s, ok⟩
        · simp [TransCache.getClonedOp, hv] at hcon
        · simp [TransCache.getClonedOp, hv] at hcon
        · by_cases hok : ok = true <;>
            simp [TransCache.getClonedOp, hv, hok] at hcon
      · intro hcon
        exact absurd hcon (by simp)
    · intro hnil
      have hveq : v = GoValue.nilV := Option.some.inj hnil
      simp [TransCache.getClonedOp, hv, hveq]
    · intro hncl
      rcases v with _ | s | ⟨s, ok⟩
      · simp [TransCache.getClonedOp, hv] at hncl
      · exact ⟨GoValue.plain s, rfl, by simp, rfl⟩
      · exfalso
        by_cases hok : ok = true <;>
          simp [TransCache.getClonedOp, hv, hok] at hncl

/-- Claim C9: a bundle built by `NewTransCache`, and likewise any bundle
built by `NewTransCacheWithOfflineCollector`, always holds a `*default`
instance, and every public operation handed an unconfigured instance id is
applied to the `*default` instance instead of failing or doing nothing. -/
theorem defaultInstance_routing (cfg : List (String × CacheConfig))
    (fldrPath : String) (dirs : String → List (SegFile α))
    (dumpInterval rewriteInterval writeLimit : Int)
    (chID itmID grpID prfx : String) (v : α) (gids : List String)
    (hcfg : chID ∉ cfg.map Prod.fst) (hnd : chID ≠ DefaultCacheInstance) :
    (((NewTransCache α cfg).cache.lookup DefaultCacheInstance).isSome = true ∧
      cacheInstance (NewTransCache α cfg) chID
        = cacheInstance (NewTransCache α cfg) DefaultCacheInstance ∧
      TransCache.getOp (NewTransCache α cfg) chID itmID
        = TransCache.getOp (NewTransCache α cfg) DefaultCacheInstance itmID ∧
      TransCache.setOp (NewTransCache α cfg) chID itmID v gids
        = TransCache.setOp (NewTransCache α cfg) DefaultCacheInstance itmID v gids ∧
      TransCache.removeOp (NewTransCache α cfg) chID itmID
        = TransCache.removeOp (NewTransCache α cfg) DefaultCacheInstance itmID ∧
      TransCache.hasItemOp (NewTransCache α cfg) chID itmID
        = TransCache.hasItemOp (NewTransCache α cfg) DefaultCacheInstance itmID ∧
      TransCache.hasGroupOp (NewTransCache α cfg) chID grpID
        = TransCache.hasGroupOp (NewTransCache α cfg) DefaultCacheInstance grpID ∧
      TransCache.getItemIDsOp (NewTransCache α cfg) chID prfx
        = TransCache.getItemIDsOp (NewTransCache α cfg) DefaultCacheInstance prfx ∧
      TransCache.clearOp (NewTransCache α cfg) (some [chID])
        = TransCache.clearOp (NewTransCache α cfg) (some [DefaultCacheInstance]) ∧
      TransCache.getCacheStatsOp (NewTransCache α cfg) [chID]
        = [(chID, ((cacheInstance (NewTransCache α cfg) DefaultCacheInstance).map
            CacheEngine.stats).getD ⟨0, 0⟩)]) ∧
    ∀ tc : TransCache α,
      newTransCacheWithOfflineCollectorBundle α fldrPath dumpInterval
          rewriteInterval writeLimit cfg dirs = .ok tc →
      ((tc.cache.lookup DefaultCacheInstance).isSome = true ∧
        cacheInstance tc chID = cacheInstance tc DefaultCacheInstance ∧
        TransCache.getOp tc chID itmID
          = TransCache.getOp tc DefaultCacheInstance itmID ∧
        TransCache.setOp tc chID itmID v gids
          = TransCache.setOp tc DefaultCacheInstance itmID v gids ∧
        TransCache.removeOp tc chID itmID
          = TransCache.removeOp tc DefaultCacheInstance itmID ∧
        TransCache.hasItemOp tc chID itmID
          = TransCache.hasItemOp tc DefaultCacheInstance itmID ∧
        TransCache.hasGroupOp tc chID grpID
          = TransCache.hasGroupOp tc DefaultCacheInstance grpID ∧
        TransCache.getItemIDsOp tc chID prfx
          = TransCache.getItemIDsOp tc DefaultCacheInstance prfx ∧
        TransCache.clearOp tc (some [chID])
          = TransCache.clearOp tc (some [DefaultCacheInstance]) ∧
        TransCache.getCacheStatsOp tc [chID]
          = [(chID, ((cacheInstance tc DefaultCacheInstance).map
              CacheEngine.stats).getD ⟨0, 0⟩)]) := by
  constructor
  · have hnone : (NewTransCache α cfg).cache.lookup chID = none := by
      apply lookup_eq_none_of_not_mem
      rw [newTransCache_keys]
      exact not_mem_keys_ensureDefaultCfg hcfg hnd
    have hdef : ((NewTransCache α cfg).cache.lookup
        DefaultCacheInstance).isSome = true := by
      apply lookup_isSome_of_mem
      rw [newTransCache_keys]
      exact default_mem_keys_ensureDefaultCfg cfg
    exact ⟨hdef, routedOps_eq_default (NewTransCache α cfg) chID itmID grpID
      prfx v gids hnone⟩
  · intro tc htc
    unfold newTransCacheWithOfflineCollectorBundle at htc
    rcases hr : newTransCacheWithOfflineCollector fldrPath
        ((ensureDefaultCfg cfg).map fun p => (p.1, dirs p.1)) with e | ms
    · rw [hr] at htc
      cases htc
    · rw [hr] at htc
      have htc' : tc = ⟨ms.map fun p => (p.1, engineFromInstance p.2)⟩ :=
        (Except.ok.inj htc).symm
      have hkeys : tc.cache.map Prod.fst = (ensureDefaultCfg cfg).map Prod.fst := by
        rw [htc']
        have h1 := newTCOffline_keys hr
        simp only [List.map_map, Function.comp] at h1 ⊢
        exact h1
      have hnone : tc.cache.lookup chID = none := by
        apply lookup_eq_none_of_not_mem
        rw [hkeys]
        exact not_mem_keys_ensureDefaultCfg hcfg hnd
      have hdef : (tc.cache.lookup DefaultCacheInstance).isSome = true := by
        apply lookup_isSome_of_mem
        rw [hkeys]
        exact default_mem_keys_ensureDefaultCfg cfg
      exact ⟨hdef, routedOps_eq_default tc chID itmID grpID prfx v gids hnone⟩

/-- Witness for claim C9 at bundles with one configured instance and the
unconfigured id `x`: one bundle built by `NewTransCache`, one built by the
offline constructor over empty instance folders. -/
theorem defaultInstance_routing_witness :
    (TransCache.getOp (NewTransCache Nat [("ins", ⟨-1, 0, false⟩)]) "x" "k"
      = TransCache.getOp (NewTransCache Nat [("ins", ⟨-1, 0, false⟩)])
          DefaultCacheInstance "k") ∧
    (TransCache.getOp
        (⟨[("ins", CacheEngine.empty), (DefaultCacheInstance, CacheEngine.empty)]⟩ :
          TransCache Nat) "x" "k"
      = TransCache.getOp
          (⟨[("ins", CacheEngine.empty), (DefaultCacheInstance, CacheEngine.empty)]⟩ :
            TransCache Nat) DefaultCacheInstance "k") :=
  ⟨(defaultInstance_routing [("ins", ⟨-1, 0, false⟩)] "r" (fun _ => []) 5 5 (-1)
      "x" "k" "g" "p" 0 [] (by decide) (by decide)).1.2.2.1,
    ((defaultInstance_routing [("ins", ⟨-1, 0, false⟩)] "r" (fun _ => []) 5 5 (-1)
        "x" "k" "g" "p" 0 [] (by decide) (by decide)).2
      ⟨[("ins", CacheEngine.empty), (DefaultCacheInstance, CacheEngine.empty)]⟩
      (by rfl)).2.2.1⟩

/-- Witness for claim C10 at a concrete bundle: an item stored with value
`nil` is returned as `(nil, nil)` with no error. -/
theorem getCloned_error_taxonomy_witness :
    TransCache.getClonedOp
        ⟨[(DefaultCacheInstance, ⟨[("k", GoValue.nilV)], []⟩)]⟩ "c" "k" = .ok none :=
  (getCloned_error_taxonomy
      ⟨[(DefaultCacheInstance, ⟨[("k", GoValue.nilV)], []⟩)]⟩ "c" "k").2.1 (by decide)

end LTCache
